import Mathlib

/-!
Verification development for the dxm data downloader (Go sources under
internal/dataDownloader).  The definitions below are shallow embeddings of
the Go functions: bbolt buckets become association lists, machine integers
become Nat/Int with explicit reduction modulo 2^64 where Go wraps, and the
external standard-library calls (time.Parse, strconv, json.Marshal, the
random generator) become explicit function parameters or oracles.
-/

set_option maxHeartbeats 1000000

/-! ## Timestamp keys

processAndSaveBatch converts the parsed timestamp (int64 nanoseconds) with
`binary.BigEndian.PutUint64(key, uint64(unixNano))`: the signed value is
cast to uint64 (reduction mod 2^64) and written as 8 big-endian bytes.
-/

/-- The Go cast `uint64(t)` for an int64 value: reduce mod 2^64. -/
def toUint64 (t : Int) : Nat := (t % (2 ^ 64 : Int)).toNat

/-- The 8 big-endian bytes written by `binary.BigEndian.PutUint64`:
byte j is `v >> (56 - 8*j)` truncated to one byte. -/
def beKey (n : Nat) : List Nat :=
  [n / 2 ^ 56 % 256, n / 2 ^ 48 % 256, n / 2 ^ 40 % 256, n / 2 ^ 32 % 256,
   n / 2 ^ 24 % 256, n / 2 ^ 16 % 256, n / 2 ^ 8 % 256, n % 256]

/-- Byte-lexicographic strict order on byte strings, as used by bbolt
(`bytes.Compare`) to order keys inside a bucket. -/
def lexLt : List Nat → List Nat → Bool
  | [], [] => false
  | [], _ :: _ => true
  | _ :: _, [] => false
  | a :: as, b :: bs => if a < b then true else if b < a then false else lexLt as bs

/-- Big-endian digit expansion of width `w` (base 256), most significant
digit first; agrees with `beKey` on values below 2^64 when `w = 8`. -/
def beBytes : Nat → Nat → List Nat
  | 0, _ => []
  | w + 1, n => (n / 256 ^ w) :: beBytes w (n % 256 ^ w)

theorem lexLt_beBytes (w : Nat) : ∀ a b : Nat, a < 256 ^ w → b < 256 ^ w →
    (lexLt (beBytes w a) (beBytes w b) = true ↔ a < b) := by
  induction w with
  | zero =>
    intro a b ha hb
    simp only [pow_zero, Nat.lt_one_iff] at ha hb
    subst ha; subst hb
    simp [beBytes, lexLt]
  | succ w ih =>
    intro a b ha hb
    have hP : 0 < 256 ^ w := pow_pos (by norm_num) w
    have hda : a = 256 ^ w * (a / 256 ^ w) + a % 256 ^ w := (Nat.div_add_mod a (256 ^ w)).symm
    have hdb : b = 256 ^ w * (b / 256 ^ w) + b % 256 ^ w := (Nat.div_add_mod b (256 ^ w)).symm
    have hma : a % 256 ^ w < 256 ^ w := Nat.mod_lt _ hP
    have hmb : b % 256 ^ w < 256 ^ w := Nat.mod_lt _ hP
    simp only [beBytes, lexLt]
    by_cases h1 : a / 256 ^ w < b / 256 ^ w
    · rw [if_pos h1]
      have hab : a < b :=
        calc a < 256 ^ w * (a / 256 ^ w) + 256 ^ w := by omega
          _ = 256 ^ w * (a / 256 ^ w + 1) := by ring
          _ ≤ 256 ^ w * (b / 256 ^ w) := Nat.mul_le_mul_left _ (by omega)
          _ ≤ b := by omega
      exact iff_of_true rfl hab
    · rw [if_neg h1]
      by_cases h2 : b / 256 ^ w < a / 256 ^ w
      · rw [if_pos h2]
        have hba : b < a :=
          calc b < 256 ^ w * (b / 256 ^ w) + 256 ^ w := by omega
            _ = 256 ^ w * (b / 256 ^ w + 1) := by ring
            _ ≤ 256 ^ w * (a / 256 ^ w) := Nat.mul_le_mul_left _ (by omega)
            _ ≤ a := by omega
        exact iff_of_false (by simp) (Nat.lt_asymm hba)
      · have hq : a / 256 ^ w = b / 256 ^ w := by omega
        rw [if_neg h2]
        rw [ih (a % 256 ^ w) (b % 256 ^ w) hma hmb]
        rw [hq] at hda
        omega

theorem beKey_eq_beBytes (n : Nat) (hn : n < 2 ^ 64) : beKey n = beBytes 8 n := by
  have e7 : (256 : Nat) ^ 7 = 2 ^ 56 := by norm_num
  have e6 : (256 : Nat) ^ 6 = 2 ^ 48 := by norm_num
  have e5 : (256 : Nat) ^ 5 = 2 ^ 40 := by norm_num
  have e4 : (256 : Nat) ^ 4 = 2 ^ 32 := by norm_num
  have e3 : (256 : Nat) ^ 3 = 2 ^ 24 := by norm_num
  have e2 : (256 : Nat) ^ 2 = 2 ^ 16 := by norm_num
  have e1 : (256 : Nat) ^ 1 = 2 ^ 8 := by norm_num
  have e0 : (256 : Nat) ^ 0 = 1 := by norm_num
  have hhead : n / 2 ^ 56 % 256 = n / 2 ^ 56 := by
    have : n / 2 ^ 56 < 256 := by
      apply Nat.div_lt_of_lt_mul
      calc n < 2 ^ 64 := hn
        _ = 2 ^ 56 * 256 := by norm_num
    exact Nat.mod_eq_of_lt this
  have mm48 : n % 2 ^ 56 % 2 ^ 48 = n % 2 ^ 48 := Nat.mod_mod_of_dvd n (pow_dvd_pow 2 (by norm_num))
  have mm40 : n % 2 ^ 48 % 2 ^ 40 = n % 2 ^ 40 := Nat.mod_mod_of_dvd n (pow_dvd_pow 2 (by norm_num))
  have mm32 : n % 2 ^ 40 % 2 ^ 32 = n % 2 ^ 32 := Nat.mod_mod_of_dvd n (pow_dvd_pow 2 (by norm_num))
  have mm24 : n % 2 ^ 32 % 2 ^ 24 = n % 2 ^ 24 := Nat.mod_mod_of_dvd n (pow_dvd_pow 2 (by norm_num))
  have mm16 : n % 2 ^ 24 % 2 ^ 16 = n % 2 ^ 16 := Nat.mod_mod_of_dvd n (pow_dvd_pow 2 (by norm_num))
  have mm8 : n % 2 ^ 16 % 2 ^ 8 = n % 2 ^ 8 := Nat.mod_mod_of_dvd n (pow_dvd_pow 2 (by norm_num))
  have md56 : n % 2 ^ 56 / 2 ^ 48 = n / 2 ^ 48 % 256 := by
    rw [show (2 : Nat) ^ 56 = 2 ^ 48 * 256 by norm_num, Nat.mod_mul_right_div_self]
  have md48 : n % 2 ^ 48 / 2 ^ 40 = n / 2 ^ 40 % 256 := by
    rw [show (2 : Nat) ^ 48 = 2 ^ 40 * 256 by norm_num, Nat.mod_mul_right_div_self]
  have md40 : n % 2 ^ 40 / 2 ^ 32 = n / 2 ^ 32 % 256 := by
    rw [show (2 : Nat) ^ 40 = 2 ^ 32 * 256 by norm_num, Nat.mod_mul_right_div_self]
  have md32 : n % 2 ^ 32 / 2 ^ 24 = n / 2 ^ 24 % 256 := by
    rw [show (2 : Nat) ^ 32 = 2 ^ 24 * 256 by norm_num, Nat.mod_mul_right_div_self]
  have md24 : n % 2 ^ 24 / 2 ^ 16 = n / 2 ^ 16 % 256 := by
    rw [show (2 : Nat) ^ 24 = 2 ^ 16 * 256 by norm_num, Nat.mod_mul_right_div_self]
  have md16 : n % 2 ^ 16 / 2 ^ 8 = n / 2 ^ 8 % 256 := by
    rw [show (2 : Nat) ^ 16 = 2 ^ 8 * 256 by norm_num, Nat.mod_mul_right_div_self]
  have md8 : n % 2 ^ 8 = n % 256 := by norm_num
  simp only [beKey, beBytes, e7, e6, e5, e4, e3, e2, e1, e0, Nat.div_one,
    mm48, mm40, mm32, mm24, mm16, mm8, md56, md48, md40, md32, md24, md16, md8, hhead]

theorem lexLt_beKey (a b : Nat) (ha : a < 2 ^ 64) (hb : b < 2 ^ 64) :
    (lexLt (beKey a) (beKey b) = true ↔ a < b) := by
  have h64 : (256 : Nat) ^ 8 = 2 ^ 64 := by norm_num
  rw [beKey_eq_beBytes a ha, beKey_eq_beBytes b hb]
  exact lexLt_beBytes 8 a b (by rw [h64]; exact ha) (by rw [h64]; exact hb)

theorem toUint64_lt (t : Int) : toUint64 t < 2 ^ 64 := by
  unfold toUint64
  omega

theorem toUint64_nonneg_eq (t : Int) (h0 : 0 ≤ t) (h1 : t < 2 ^ 63) :
    (toUint64 t : Int) = t := by
  unfold toUint64
  omega

theorem toUint64_neg_eq (t : Int) (h0 : -2 ^ 63 ≤ t) (h1 : t < 0) :
    (toUint64 t : Int) = t + 2 ^ 64 := by
  unfold toUint64
  omega

/-- C2, counterexample: the claim asserts that for ALL signed 64-bit nanosecond
values t1 < t2 the big-endian key of `uint64(t1)` is lexicographically below the
key of `uint64(t2)`.  At t1 = -1 (timestamp 1969-12-31T23:59:59.999999999Z) and
t2 = 0 (the epoch) the cast to uint64 wraps t1 to 2^64 - 1, whose key is the
byte string FF..FF, which sorts after the all-zero key of t2, refuting the
claim. -/
theorem c2_key_order_counterexample :
    (-1 : Int) < 0 ∧ lexLt (beKey (toUint64 (-1))) (beKey (toUint64 0)) = false := by
  constructor
  · decide
  · decide

/-- C2, amended: byte-lexicographic order of the stored keys agrees with the
order of the parsed nanosecond timestamps whenever the two timestamps are on
the same side of the epoch (both nonnegative, or both negative); mixed-sign
pairs violate it because the uint64 cast wraps negative values. -/
theorem c2_key_order_same_sign (t1 t2 : Int)
    (hr1 : -2 ^ 63 ≤ t1) (hr1' : t1 < 2 ^ 63)
    (hr2 : -2 ^ 63 ≤ t2) (hr2' : t2 < 2 ^ 63)
    (hsign : (0 ≤ t1 ∧ 0 ≤ t2) ∨ (t1 < 0 ∧ t2 < 0)) :
    (t1 < t2 ↔ lexLt (beKey (toUint64 t1)) (beKey (toUint64 t2)) = true) := by
  have hkey := lexLt_beKey (toUint64 t1) (toUint64 t2) (toUint64_lt t1) (toUint64_lt t2)
  rw [hkey]
  rcases hsign with ⟨h1, h2⟩ | ⟨h1, h2⟩
  · have e1 := toUint64_nonneg_eq t1 h1 hr1'
    have e2 := toUint64_nonneg_eq t2 h2 hr2'
    omega
  · have e1 := toUint64_neg_eq t1 hr1 h1
    have e2 := toUint64_neg_eq t2 hr2 h2
    omega

/-- Witness for c2_key_order_same_sign at t1 = 0, t2 = 1. -/
theorem c2_key_order_same_sign_witness :
    ((0 : Int) < 1 ↔ lexLt (beKey (toUint64 0)) (beKey (toUint64 1)) = true) :=
  c2_key_order_same_sign 0 1 (by decide) (by decide) (by decide) (by decide)
    (Or.inl ⟨by decide, by decide⟩)

/-! ## Store model

A bbolt database is modelled as nested association lists: the top level maps
symbol names to symbol buckets, a symbol bucket maps the field sub-bucket
names to field maps, and a field map maps 8-byte keys to the textually
encoded field values.  `bbolt.Update` runs the transaction body and rolls
the store back when the body returns an error; put and create-bucket
operations may fail at the store level, which is modelled by a fault oracle
indexed by the running count of fallible operations in the transaction. -/

abbrev Key := List Nat

abbrev FieldMap := List (Key × String)

abbrev SymBucket := List (String × FieldMap)

abbrev Store := List (String × SymBucket)

/-- The bucket Put operation: replace the value at an existing key in place,
otherwise append the new pair. -/
def fmPut : FieldMap → Key → String → FieldMap
  | [], k, v => [(k, v)]
  | (k1, v1) :: rest, k, v =>
    if k1 = k then (k, v) :: rest else (k1, v1) :: fmPut rest k v

/-- Association-list lookup by name (bucket access by name). -/
def lookupA {α : Type} : List (String × α) → String → Option α
  | [], _ => none
  | (n, x) :: rest, f => if n = f then some x else lookupA rest f

/-- Association-list update by name, appending when the name is absent. -/
def setA {α : Type} : List (String × α) → String → α → List (String × α)
  | [], f, x => [(f, x)]
  | (n, y) :: rest, f, x =>
    if n = f then (f, x) :: rest else (n, y) :: setA rest f x

/-- The CreateBucketIfNotExists operation: keep an existing bucket, otherwise create an
empty one. -/
def createIfNotExists {α : Type} (l : List (String × α)) (f : String) (e : α) :
    List (String × α) :=
  match lookupA l f with
  | some _ => l
  | none => l ++ [(f, e)]

/-- The record decoded from one Alpaca quote (struct oneQuote).  The float64
fields are kept abstract in a type `F`; all encoders for external library
calls are supplied through `Codec`. -/
structure OneQuote (F : Type) where
  AP : F
  AS : Int
  AX : String
  BP : F
  BS : Int
  BX : String
  C : String
  T : String
  Z : String
deriving DecidableEq

/-- The external standard-library calls used by processAndSaveBatch:
`strconv.FormatFloat`, `strconv.Itoa`, `json.Marshal` (total on strings) and
`time.Parse(time.RFC3339Nano, ...).UnixNano()` (None models a parse error). -/
structure Codec (F : Type) where
  formatFloat : F → String
  itoa : Int → String
  jsonMarshal : String → String
  parseRFC3339Nano : String → Option Int

/-- Errors a transaction body can return, mirroring the fmt.Errorf wrapping
in processAndSaveBatch; `nilBucket` models the nil-pointer dereference that
a Put on a missing sub-bucket would be. -/
inductive TxErr where
  | createSymbolErr (symbol : String)
  | createSubErr (field : String) (symbol : String)
  | nilBucket (field : String)
  | putErr (field : String) (key : Key)
deriving DecidableEq

/-- One `subBuckets[field].Put(key, value)` call: fails with the wrapped
field/key description when the fault oracle fires at the current operation
index. -/
def putField (faults : Nat → Bool) (sb : SymBucket) (ctr : Nat)
    (field : String) (k : Key) (v : String) : Except TxErr (SymBucket × Nat) :=
  match lookupA sb field with
  | none => .error (.nilBucket field)
  | some m =>
    if faults ctr then .error (.putErr field k)
    else .ok (setA sb field (fmPut m k v), ctr + 1)

/-- The eight (field name, encoded value) pairs written for one quote, in the
order of the straight-line Put calls in the source. -/
def quoteFields {F : Type} (cd : Codec F) (q : OneQuote F) : List (String × String) :=
  [("AP", cd.formatFloat q.AP), ("AS", cd.itoa q.AS), ("AX", q.AX),
   ("BP", cd.formatFloat q.BP), ("BS", cd.itoa q.BS), ("BX", q.BX),
   ("C", cd.jsonMarshal q.C), ("Z", q.Z)]

/-- The straight-line sequence of Put calls for one record, aborting the
transaction body at the first failure. -/
def putFields (faults : Nat → Bool) (sb : SymBucket) (ctr : Nat) (k : Key) :
    List (String × String) → Except TxErr (SymBucket × Nat)
  | [] => .ok (sb, ctr)
  | (f, v) :: rest =>
    match putField faults sb ctr f k v with
    | .error e => .error e
    | .ok (sb1, c1) => putFields faults sb1 c1 k rest

/-- Processing of one record inside the batch loop: parse the timestamp,
skip the record on a parse failure (warning logged, no put performed), and
otherwise perform the eight puts under the big-endian timestamp key. -/
def saveQuote {F : Type} (faults : Nat → Bool) (cd : Codec F) (sb : SymBucket)
    (ctr : Nat) (q : OneQuote F) : Except TxErr (SymBucket × Nat) :=
  match cd.parseRFC3339Nano q.T with
  | none => .ok (sb, ctr)
  | some t => putFields faults sb ctr (beKey (toUint64 t)) (quoteFields cd q)

/-- The loop over the quotes of the batch. -/
def saveQuotes {F : Type} (faults : Nat → Bool) (cd : Codec F) (sb : SymBucket)
    (ctr : Nat) : List (OneQuote F) → Except TxErr (SymBucket × Nat)
  | [] => .ok (sb, ctr)
  | q :: qs =>
    match saveQuote faults cd sb ctr q with
    | .error e => .error e
    | .ok (sb1, c1) => saveQuotes faults cd sb1 c1 qs

/-- The loop creating the per-field sub-buckets
(`symbolBucket.CreateBucketIfNotExists([]byte(field))`). -/
def ensureSubs (faults : Nat → Bool) (symbol : String) (sb : SymBucket)
    (ctr : Nat) : List String → Except TxErr (SymBucket × Nat)
  | [] => .ok (sb, ctr)
  | f :: fs =>
    if faults ctr then .error (.createSubErr f symbol)
    else ensureSubs faults symbol (createIfNotExists sb f []) (ctr + 1) fs

/-- The body of the write transaction of processAndSaveBatch: get-or-create
the symbol bucket, get-or-create the field sub-buckets, then write every
record of the batch. -/
def txBody {F : Type} (faults : Nat → Bool) (cd : Codec F) (s : Store)
    (symbol : String) (quotes : List (OneQuote F)) (fbs : List String) :
    Except TxErr (Store × Nat) :=
  if faults 0 then .error (.createSymbolErr symbol)
  else
    match ensureSubs faults symbol ((lookupA s symbol).getD []) 1 fbs with
    | .error e => .error e
    | .ok (sb1, c1) =>
      match saveQuotes faults cd sb1 c1 quotes with
      | .error e => .error e
      | .ok (sb2, c2) => .ok (setA s symbol sb2, c2)

/-- processAndSaveBatch: run the transaction body under `dbInstance.Update`;
on an error the transaction is rolled back and the error returned, on nil
the modified store is committed. -/
def processAndSaveBatch {F : Type} (faults : Nat → Bool) (cd : Codec F)
    (s : Store) (symbol : String) (quotes : List (OneQuote F))
    (fbs : List String) : Store × Option TxErr :=
  match txBody faults cd s symbol quotes fbs with
  | .ok (s1, _) => (s1, none)
  | .error e => (s, some e)

/-- The sub-bucket names used by SaveQuotesConcurrently
(timestamp T is the key, not a field). -/
def fieldBuckets : List String := ["AP", "AS", "AX", "BP", "BS", "BX", "C", "Z"]

/-- The fault-free oracle: no store-level failure is injected. -/
def noFaults : Nat → Bool := fun _ => false

/-- The keys present in a field sub-bucket of a symbol bucket. -/
def sbKeys (sb : SymBucket) (f : String) : List Key :=
  ((lookupA sb f).getD []).map Prod.fst

/-- The keys present in a field sub-bucket of a symbol in the store. -/
def storeSubKeys (s : Store) (symbol f : String) : List Key :=
  sbKeys ((lookupA s symbol).getD []) f

/-- The C3 invariant: the eight field sub-buckets of a symbol hold the same
key set (a missing sub-bucket counts as empty). -/
def sameKeySets (s : Store) (symbol : String) : Prop :=
  ∀ f1 ∈ fieldBuckets, ∀ f2 ∈ fieldBuckets, ∀ k : Key,
    k ∈ storeSubKeys s symbol f1 ↔ k ∈ storeSubKeys s symbol f2

/-! ## Basic lemmas about the association-list operations -/

theorem lookupA_setA_self {α : Type} (l : List (String × α)) (f : String) (x : α) :
    lookupA (setA l f x) f = some x := by
  induction l with
  | nil => simp [setA, lookupA]
  | cons p rest ih =>
    obtain ⟨n, y⟩ := p
    by_cases h : n = f
    · simp [setA, lookupA, h]
    · simp [setA, lookupA, h, ih]

theorem lookupA_setA_ne {α : Type} (l : List (String × α)) (f n : String) (x : α)
    (h : n ≠ f) : lookupA (setA l f x) n = lookupA l n := by
  induction l with
  | nil => simp [setA, lookupA, Ne.symm h]
  | cons p rest ih =>
    obtain ⟨n1, y⟩ := p
    by_cases h1 : n1 = f
    · subst h1
      have hne : ¬ n1 = n := fun hh => h (Eq.symm hh)
      simp only [setA, if_pos rfl, lookupA, if_neg hne]
    · simp only [setA, if_neg h1, lookupA]
      by_cases h2 : n1 = n
      · simp [h2]
      · simp [h2, ih]

theorem setA_lookupA_self {α : Type} (l : List (String × α)) (f : String) (x : α)
    (h : lookupA l f = some x) : setA l f x = l := by
  induction l with
  | nil => simp [lookupA] at h
  | cons p rest ih =>
    obtain ⟨n, y⟩ := p
    by_cases h1 : n = f
    · subst h1
      simp [lookupA] at h
      simp [setA, h]
    · simp [lookupA, h1] at h
      simp [setA, h1, ih h]

theorem setA_setA {α : Type} (l : List (String × α)) (f : String) (x y : α) :
    setA (setA l f x) f y = setA l f y := by
  induction l with
  | nil => simp [setA]
  | cons p rest ih =>
    obtain ⟨n, z⟩ := p
    by_cases h : n = f
    · simp [setA, h]
    · simp [setA, h, ih]

theorem createIfNotExists_present {α : Type} (l : List (String × α)) (f : String)
    (e : α) (m : α) (h : lookupA l f = some m) : createIfNotExists l f e = l := by
  simp [createIfNotExists, h]

theorem lookupA_append {α : Type} (l1 l2 : List (String × α)) (n : String) :
    lookupA (l1 ++ l2) n =
      match lookupA l1 n with
      | some x => some x
      | none => lookupA l2 n := by
  induction l1 with
  | nil => simp [lookupA]
  | cons p rest ih =>
    obtain ⟨n1, y⟩ := p
    by_cases h : n1 = n
    · simp [lookupA, h]
    · simp [lookupA, h, ih]

theorem lookupA_createIfNotExists {α : Type} (l : List (String × α)) (f n : String)
    (e : α) :
    lookupA (createIfNotExists l f e) n =
      match lookupA l n with
      | some x => some x
      | none => if n = f then some e else none := by
  unfold createIfNotExists
  cases hf : lookupA l f with
  | some m =>
    cases hn : lookupA l n with
    | some x => simp
    | none =>
      simp only
      by_cases h : n = f
      · subst h; rw [hn] at hf; cases hf
      · simp [h]
  | none =>
    rw [lookupA_append]
    cases hn : lookupA l n with
    | some x => simp
    | none =>
      simp only [lookupA]
      by_cases h : n = f
      · simp [h]
      · simp [h, Ne.symm h]

theorem fmPut_keys (m : FieldMap) (k : Key) (v : String) (k1 : Key) :
    (k1 ∈ (fmPut m k v).map Prod.fst ↔ k1 ∈ m.map Prod.fst ∨ k1 = k) := by
  induction m with
  | nil => simp [fmPut]
  | cons p rest ih =>
    obtain ⟨k2, v2⟩ := p
    by_cases h : k2 = k
    · subst h
      rw [show fmPut ((k2, v2) :: rest) k2 v = (k2, v) :: rest from by simp [fmPut]]
      simp only [List.map_cons, List.mem_cons]
      tauto
    · simp only [fmPut, if_neg h, List.map_cons, List.mem_cons, ih]
      tauto

theorem fmPut_fmPut_same (m : FieldMap) (k : Key) (v : String) :
    fmPut (fmPut m k v) k v = fmPut m k v := by
  induction m with
  | nil => simp [fmPut]
  | cons p rest ih =>
    obtain ⟨k1, v1⟩ := p
    by_cases h : k1 = k
    · simp [fmPut, h]
    · simp [fmPut, h, ih]

/-! ## C1: batch atomicity and error description -/

theorem quoteFields_names {F : Type} (cd : Codec F) (q : OneQuote F) :
    (quoteFields cd q).map Prod.fst = fieldBuckets := rfl

theorem ensureSubs_error (faults : Nat → Bool) (symbol : String) :
    ∀ (fs : List String) (sb : SymBucket) (ctr : Nat) (e : TxErr),
    ensureSubs faults symbol sb ctr fs = .error e →
    ∃ f ∈ fs, e = .createSubErr f symbol := by
  intro fs
  induction fs with
  | nil => intro sb ctr e h; simp [ensureSubs] at h
  | cons f fs ih =>
    intro sb ctr e h
    unfold ensureSubs at h
    by_cases hf : faults ctr
    · rw [if_pos hf] at h
      exact ⟨f, by simp, by cases h; rfl⟩
    · rw [if_neg hf] at h
      obtain ⟨f1, hf1, he⟩ := ih _ _ _ h
      exact ⟨f1, by simp [hf1], he⟩

theorem putField_error_cases (faults : Nat → Bool) (sb : SymBucket) (ctr : Nat)
    (field : String) (k : Key) (v : String) (e : TxErr)
    (h : putField faults sb ctr field k v = .error e) :
    e = .nilBucket field ∨ e = .putErr field k := by
  cases hl : lookupA sb field with
  | none =>
    simp only [putField, hl] at h
    exact Or.inl (by cases h; rfl)
  | some m =>
    by_cases hf : faults ctr
    · simp only [putField, hl, if_pos hf] at h
      exact Or.inr (by cases h; rfl)
    · simp only [putField, hl, if_neg hf] at h
      cases h

theorem putField_ok_cases (faults : Nat → Bool) (sb : SymBucket) (ctr : Nat)
    (field : String) (k : Key) (v : String) (sb1 : SymBucket) (c1 : Nat)
    (h : putField faults sb ctr field k v = .ok (sb1, c1)) :
    ∃ m, lookupA sb field = some m ∧ faults ctr = false ∧
      sb1 = setA sb field (fmPut m k v) ∧ c1 = ctr + 1 := by
  cases hl : lookupA sb field with
  | none =>
    simp only [putField, hl] at h
    exact Except.noConfusion h
  | some m =>
    by_cases hf : faults ctr
    · simp only [putField, hl, if_pos hf] at h
      exact Except.noConfusion h
    · simp only [putField, hl, if_neg hf, Except.ok.injEq, Prod.mk.injEq] at h
      exact ⟨m, rfl, by simp [hf], h.1.symm, h.2.symm⟩

theorem putFields_error_putErr (faults : Nat → Bool) (k : Key) :
    ∀ (l : List (String × String)) (sb : SymBucket) (ctr : Nat) (f : String) (k1 : Key),
    putFields faults sb ctr k l = .error (.putErr f k1) →
    k1 = k ∧ f ∈ l.map Prod.fst := by
  intro l
  induction l with
  | nil => intro sb ctr f k1 h; simp [putFields] at h
  | cons p rest ih =>
    intro sb ctr f k1 h
    obtain ⟨f0, v0⟩ := p
    unfold putFields at h
    cases hp : putField faults sb ctr f0 k v0 with
    | error e0 =>
      rw [hp] at h
      cases h
      rcases putField_error_cases faults sb ctr f0 k v0 _ hp with h1 | h1
      · cases h1
      · cases h1
        exact ⟨rfl, by simp⟩
    | ok r =>
      obtain ⟨sb1, c1⟩ := r
      simp only [hp] at h
      obtain ⟨hk, hfm⟩ := ih _ _ _ _ h
      exact ⟨hk, by simp [hfm]⟩

theorem putFields_error_shape (faults : Nat → Bool) (k : Key) :
    ∀ (l : List (String × String)) (sb : SymBucket) (ctr : Nat) (e : TxErr),
    putFields faults sb ctr k l = .error e →
    (∃ f, e = .nilBucket f) ∨ (∃ f k1, e = .putErr f k1) := by
  intro l
  induction l with
  | nil => intro sb ctr e h; simp [putFields] at h
  | cons p rest ih =>
    intro sb ctr e h
    obtain ⟨f0, v0⟩ := p
    unfold putFields at h
    cases hp : putField faults sb ctr f0 k v0 with
    | error e0 =>
      rw [hp] at h
      cases h
      rcases putField_error_cases faults sb ctr f0 k v0 _ hp with h1 | h1
      · exact Or.inl ⟨f0, h1⟩
      · exact Or.inr ⟨f0, k, h1⟩
    | ok r =>
      obtain ⟨sb1, c1⟩ := r
      simp only [hp] at h
      exact ih _ _ _ h

theorem saveQuote_error_putErr {F : Type} (faults : Nat → Bool) (cd : Codec F)
    (sb : SymBucket) (ctr : Nat) (q : OneQuote F) (f : String) (k1 : Key)
    (h : saveQuote faults cd sb ctr q = .error (.putErr f k1)) :
    (∃ t, cd.parseRFC3339Nano q.T = some t ∧ k1 = beKey (toUint64 t)) ∧
      f ∈ fieldBuckets := by
  unfold saveQuote at h
  cases hp : cd.parseRFC3339Nano q.T with
  | none => rw [hp] at h; cases h
  | some t =>
    rw [hp] at h
    obtain ⟨hk, hf⟩ := putFields_error_putErr faults _ _ _ _ _ _ h
    rw [quoteFields_names] at hf
    exact ⟨⟨t, rfl, hk⟩, hf⟩

theorem saveQuote_error_shape {F : Type} (faults : Nat → Bool) (cd : Codec F)
    (sb : SymBucket) (ctr : Nat) (q : OneQuote F) (e : TxErr)
    (h : saveQuote faults cd sb ctr q = .error e) :
    (∃ f, e = .nilBucket f) ∨ (∃ f k1, e = .putErr f k1) := by
  unfold saveQuote at h
  cases hp : cd.parseRFC3339Nano q.T with
  | none => rw [hp] at h; cases h
  | some t =>
    rw [hp] at h
    exact putFields_error_shape faults _ _ _ _ _ h

theorem saveQuotes_error_putErr {F : Type} (faults : Nat → Bool) (cd : Codec F) :
    ∀ (qs : List (OneQuote F)) (sb : SymBucket) (ctr : Nat) (f : String) (k1 : Key),
    saveQuotes faults cd sb ctr qs = .error (.putErr f k1) →
    (∃ q ∈ qs, ∃ t, cd.parseRFC3339Nano q.T = some t ∧ k1 = beKey (toUint64 t)) ∧
      f ∈ fieldBuckets := by
  intro qs
  induction qs with
  | nil => intro sb ctr f k1 h; simp [saveQuotes] at h
  | cons q qs ih =>
    intro sb ctr f k1 h
    unfold saveQuotes at h
    cases hq : saveQuote faults cd sb ctr q with
    | error e0 =>
      rw [hq] at h
      cases h
      obtain ⟨⟨t, ht, hk⟩, hf⟩ := saveQuote_error_putErr faults cd _ _ _ _ _ hq
      exact ⟨⟨q, by simp, t, ht, hk⟩, hf⟩
    | ok r =>
      obtain ⟨sb1, c1⟩ := r
      rw [hq] at h
      obtain ⟨⟨q1, hq1, t, ht, hk⟩, hf⟩ := ih _ _ _ _ h
      exact ⟨⟨q1, by simp [hq1], t, ht, hk⟩, hf⟩

theorem saveQuotes_error_shape {F : Type} (faults : Nat → Bool) (cd : Codec F) :
    ∀ (qs : List (OneQuote F)) (sb : SymBucket) (ctr : Nat) (e : TxErr),
    saveQuotes faults cd sb ctr qs = .error e →
    (∃ f, e = .nilBucket f) ∨ (∃ f k1, e = .putErr f k1) := by
  intro qs
  induction qs with
  | nil => intro sb ctr e h; simp [saveQuotes] at h
  | cons q qs ih =>
    intro sb ctr e h
    unfold saveQuotes at h
    cases hq : saveQuote faults cd sb ctr q with
    | error e0 =>
      rw [hq] at h
      cases h
      exact saveQuote_error_shape faults cd _ _ _ _ hq
    | ok r =>
      obtain ⟨sb1, c1⟩ := r
      rw [hq] at h
      exact ih _ _ _ h

theorem txBody_error {F : Type} (faults : Nat → Bool) (cd : Codec F) (s : Store)
    (symbol : String) (quotes : List (OneQuote F)) (fbs : List String) (e : TxErr)
    (h : txBody faults cd s symbol quotes fbs = .error e) :
    e = .createSymbolErr symbol ∨
    (∃ f ∈ fbs, e = .createSubErr f symbol) ∨
    (∃ sb1 c1, ensureSubs faults symbol ((lookupA s symbol).getD []) 1 fbs = .ok (sb1, c1) ∧
      saveQuotes faults cd sb1 c1 quotes = .error e) := by
  unfold txBody at h
  by_cases h0 : faults 0
  · rw [if_pos h0] at h
    cases h
    exact Or.inl rfl
  · rw [if_neg h0] at h
    cases he : ensureSubs faults symbol ((lookupA s symbol).getD []) 1 fbs with
    | error e1 =>
      rw [he] at h
      cases h
      exact Or.inr (Or.inl (ensureSubs_error faults symbol fbs _ _ _ he))
    | ok r =>
      obtain ⟨sb1, c1⟩ := r
      simp only [he] at h
      cases hs : saveQuotes faults cd sb1 c1 quotes with
      | error e2 =>
        simp only [hs] at h
        cases h
        exact Or.inr (Or.inr ⟨sb1, c1, rfl, hs⟩)
      | ok r2 =>
        obtain ⟨sb2, c2⟩ := r2
        simp only [hs] at h
        exact Except.noConfusion h

/-- C1: batch atomicity of the write transaction.  Whenever the transaction
body of processAndSaveBatch fails (a bucket creation or a per-field put
returns an error), the rolled-back store equals the original store, so no
record of that batch is visible; a putErr names the field and the big-endian
timestamp key of a record of this very batch, and a createSubErr names one of
the requested sub-bucket names and the symbol; on a nil error, the whole
batch was committed by the single transaction body. -/
theorem c1_batch_atomicity {F : Type} (faults : Nat → Bool) (cd : Codec F)
    (s : Store) (symbol : String) (quotes : List (OneQuote F)) (fbs : List String) :
    (∀ e, (processAndSaveBatch faults cd s symbol quotes fbs).2 = some e →
      (processAndSaveBatch faults cd s symbol quotes fbs).1 = s)
    ∧ ((processAndSaveBatch faults cd s symbol quotes fbs).2 = none →
      ∃ s1 c, txBody faults cd s symbol quotes fbs = .ok (s1, c) ∧
        (processAndSaveBatch faults cd s symbol quotes fbs).1 = s1)
    ∧ (∀ f k1, (processAndSaveBatch faults cd s symbol quotes fbs).2 =
        some (.putErr f k1) →
      f ∈ fieldBuckets ∧ ∃ q ∈ quotes, ∃ t,
        cd.parseRFC3339Nano q.T = some t ∧ k1 = beKey (toUint64 t))
    ∧ (∀ f sy, (processAndSaveBatch faults cd s symbol quotes fbs).2 =
        some (.createSubErr f sy) → f ∈ fbs ∧ sy = symbol) := by
  cases htx : txBody faults cd s symbol quotes fbs with
  | ok r =>
    obtain ⟨s1, c⟩ := r
    refine ⟨?_, ?_, ?_, ?_⟩
    · intro e he
      simp [processAndSaveBatch, htx] at he
    · intro _
      exact ⟨s1, c, rfl, by simp [processAndSaveBatch, htx]⟩
    · intro f k1 he
      simp [processAndSaveBatch, htx] at he
    · intro f sy he
      simp [processAndSaveBatch, htx] at he
  | error e =>
    refine ⟨?_, ?_, ?_, ?_⟩
    · intro e1 _
      simp [processAndSaveBatch, htx]
    · intro hnone
      simp [processAndSaveBatch, htx] at hnone
    · intro f k1 he
      simp [processAndSaveBatch, htx] at he
      subst he
      rcases txBody_error faults cd s symbol quotes fbs _ htx with h1 | ⟨f1, _, h1⟩ | ⟨sb1, c1, _, hs⟩
      · cases h1
      · cases h1
      · obtain ⟨⟨q, hq, t, ht, hk⟩, hf⟩ := saveQuotes_error_putErr faults cd _ _ _ _ _ hs
        exact ⟨hf, q, hq, t, ht, hk⟩
    · intro f sy he
      simp [processAndSaveBatch, htx] at he
      subst he
      rcases txBody_error faults cd s symbol quotes fbs _ htx with h1 | ⟨f1, hf1, h1⟩ | ⟨sb1, c1, _, hs⟩
      · cases h1
      · cases h1
        exact ⟨hf1, rfl⟩
      · rcases saveQuotes_error_shape faults cd _ _ _ _ hs with ⟨f2, h2⟩ | ⟨f2, k2, h2⟩
        · cases h2
        · cases h2

/-- Concrete codec used by the witnesses (float type instantiated by Unit). -/
def unitCodec : Codec Unit where
  formatFloat := fun _ => "1.5"
  itoa := fun _ => "7"
  jsonMarshal := fun c => c
  parseRFC3339Nano := fun ts =>
    if ts = "1970-01-01T00:00:00.000000001Z" then some 1 else none

/-- Witness record with a parseable timestamp. -/
def goodQuote : OneQuote Unit where
  AP := ()
  AS := 7
  AX := "V"
  BP := ()
  BS := 8
  BX := "W"
  C := "R"
  T := "1970-01-01T00:00:00.000000001Z"
  Z := "A"

/-- Witness record with an unparseable timestamp. -/
def badQuote : OneQuote Unit where
  AP := ()
  AS := 7
  AX := "V"
  BP := ()
  BS := 8
  BX := "W"
  C := "R"
  T := "not-a-timestamp"
  Z := "A"

/-- Witness for c1_batch_atomicity: injecting a failure on the AS put (the
11th fallible store operation of the transaction) leaves the empty store
unchanged. -/
theorem c1_batch_atomicity_witness :
    (processAndSaveBatch (fun n => n == 10) unitCodec [] "QQQ" [goodQuote]
      fieldBuckets).1 = [] :=
  (c1_batch_atomicity (fun n => n == 10) unitCodec [] "QQQ" [goodQuote]
      fieldBuckets).1
    (TxErr.putErr "AS" (beKey (toUint64 1))) (by decide)

/-! ## C3: identical key sets across the eight field sub-buckets -/

theorem sbKeys_createIfNotExists (sb : SymBucket) (f0 f : String) :
    sbKeys (createIfNotExists sb f0 []) f = sbKeys sb f := by
  unfold sbKeys
  rw [lookupA_createIfNotExists]
  cases h : lookupA sb f with
  | some m => simp
  | none =>
    by_cases hf : f = f0
    · simp [hf]
    · simp [hf]

theorem lookupA_createIfNotExists_mono {α : Type} (l : List (String × α))
    (f0 f : String) (e : α) (h : ∃ m, lookupA l f = some m) :
    ∃ m, lookupA (createIfNotExists l f0 e) f = some m := by
  obtain ⟨m, hm⟩ := h
  rw [lookupA_createIfNotExists, hm]
  exact ⟨m, rfl⟩

theorem ensureSubs_ok_sbKeys (faults : Nat → Bool) (symbol : String) :
    ∀ (fs : List String) (sb : SymBucket) (ctr : Nat) (sb1 : SymBucket) (c1 : Nat),
    ensureSubs faults symbol sb ctr fs = .ok (sb1, c1) →
    ∀ f, sbKeys sb1 f = sbKeys sb f := by
  intro fs
  induction fs with
  | nil =>
    intro sb ctr sb1 c1 h f
    simp only [ensureSubs, Except.ok.injEq, Prod.mk.injEq] at h
    rw [← h.1]
  | cons f0 fs ih =>
    intro sb ctr sb1 c1 h f
    unfold ensureSubs at h
    by_cases hf : faults ctr
    · rw [if_pos hf] at h; cases h
    · rw [if_neg hf] at h
      rw [ih _ _ _ _ h f, sbKeys_createIfNotExists]

theorem ensureSubs_ok_preserves_present (faults : Nat → Bool) (symbol : String) :
    ∀ (fs : List String) (sb : SymBucket) (ctr : Nat) (sb1 : SymBucket) (c1 : Nat),
    ensureSubs faults symbol sb ctr fs = .ok (sb1, c1) →
    ∀ f, (∃ m, lookupA sb f = some m) → ∃ m, lookupA sb1 f = some m := by
  intro fs
  induction fs with
  | nil =>
    intro sb ctr sb1 c1 h f hp
    simp only [ensureSubs, Except.ok.injEq, Prod.mk.injEq] at h
    rw [← h.1]
    exact hp
  | cons f0 fs ih =>
    intro sb ctr sb1 c1 h f hp
    unfold ensureSubs at h
    by_cases hf : faults ctr
    · rw [if_pos hf] at h; cases h
    · rw [if_neg hf] at h
      exact ih _ _ _ _ h f (lookupA_createIfNotExists_mono sb f0 f [] hp)

theorem ensureSubs_ok_present (faults : Nat → Bool) (symbol : String) :
    ∀ (fs : List String) (sb : SymBucket) (ctr : Nat) (sb1 : SymBucket) (c1 : Nat),
    ensureSubs faults symbol sb ctr fs = .ok (sb1, c1) →
    ∀ f ∈ fs, ∃ m, lookupA sb1 f = some m := by
  intro fs
  induction fs with
  | nil => intro sb ctr sb1 c1 h f hf; cases hf
  | cons f0 fs ih =>
    intro sb ctr sb1 c1 h f hf
    unfold ensureSubs at h
    by_cases hc : faults ctr
    · rw [if_pos hc] at h; cases h
    · rw [if_neg hc] at h
      rcases List.mem_cons.mp hf with hf | hf
      · subst hf
        refine ensureSubs_ok_preserves_present faults symbol fs _ _ _ _ h f ?_
        rw [lookupA_createIfNotExists]
        cases hl : lookupA sb f with
        | some m => exact ⟨m, rfl⟩
        | none => exact ⟨[], by simp⟩
      · exact ih _ _ _ _ h f hf

theorem putField_ok_present (faults : Nat → Bool) (sb : SymBucket) (ctr : Nat)
    (field : String) (k : Key) (v : String) (sb1 : SymBucket) (c1 : Nat)
    (h : putField faults sb ctr field k v = .ok (sb1, c1)) :
    ∀ f, (∃ m, lookupA sb f = some m) → ∃ m, lookupA sb1 f = some m := by
  obtain ⟨m, _, _, hsb1, _⟩ := putField_ok_cases faults sb ctr field k v sb1 c1 h
  intro f hp
  subst hsb1
  by_cases hf : f = field
  · subst hf
    exact ⟨fmPut m k v, lookupA_setA_self sb f _⟩
  · rw [lookupA_setA_ne sb field f _ hf]
    exact hp

theorem putField_ok_sbKeys (faults : Nat → Bool) (sb : SymBucket) (ctr : Nat)
    (field : String) (k : Key) (v : String) (sb1 : SymBucket) (c1 : Nat)
    (h : putField faults sb ctr field k v = .ok (sb1, c1)) :
    ∀ f k1, k1 ∈ sbKeys sb1 f ↔ k1 ∈ sbKeys sb f ∨ (f = field ∧ k1 = k) := by
  obtain ⟨m, hm, _, hsb1, _⟩ := putField_ok_cases faults sb ctr field k v sb1 c1 h
  intro f k1
  subst hsb1
  by_cases hf : f = field
  · subst hf
    unfold sbKeys
    rw [lookupA_setA_self, hm]
    simp only [Option.getD_some]
    rw [fmPut_keys]
    tauto
  · unfold sbKeys
    rw [lookupA_setA_ne sb field f _ hf]
    tauto

theorem putFields_ok_present (faults : Nat → Bool) (k : Key) :
    ∀ (l : List (String × String)) (sb : SymBucket) (ctr : Nat) (sb1 : SymBucket) (c1 : Nat),
    putFields faults sb ctr k l = .ok (sb1, c1) →
    ∀ f, (∃ m, lookupA sb f = some m) → ∃ m, lookupA sb1 f = some m := by
  intro l
  induction l with
  | nil =>
    intro sb ctr sb1 c1 h f hp
    simp only [putFields, Except.ok.injEq, Prod.mk.injEq] at h
    rw [← h.1]
    exact hp
  | cons p rest ih =>
    intro sb ctr sb1 c1 h f hp
    obtain ⟨f0, v0⟩ := p
    unfold putFields at h
    cases hp0 : putField faults sb ctr f0 k v0 with
    | error e0 => rw [hp0] at h; cases h
    | ok r =>
      obtain ⟨sba, ca⟩ := r
      simp only [hp0] at h
      exact ih _ _ _ _ h f (putField_ok_present faults sb ctr f0 k v0 sba ca hp0 f hp)

theorem putFields_ok_sbKeys (faults : Nat → Bool) (k : Key) :
    ∀ (l : List (String × String)) (sb : SymBucket) (ctr : Nat) (sb1 : SymBucket) (c1 : Nat),
    putFields faults sb ctr k l = .ok (sb1, c1) →
    ∀ f k1, k1 ∈ sbKeys sb1 f ↔ k1 ∈ sbKeys sb f ∨ (f ∈ l.map Prod.fst ∧ k1 = k) := by
  intro l
  induction l with
  | nil =>
    intro sb ctr sb1 c1 h f k1
    simp only [putFields, Except.ok.injEq, Prod.mk.injEq] at h
    rw [← h.1]
    simp
  | cons p rest ih =>
    intro sb ctr sb1 c1 h f k1
    obtain ⟨f0, v0⟩ := p
    unfold putFields at h
    cases hp0 : putField faults sb ctr f0 k v0 with
    | error e0 => rw [hp0] at h; cases h
    | ok r =>
      obtain ⟨sba, ca⟩ := r
      simp only [hp0] at h
      rw [ih _ _ _ _ h f k1,
        putField_ok_sbKeys faults sb ctr f0 k v0 sba ca hp0 f k1]
      simp only [List.map_cons, List.mem_cons]
      tauto

theorem saveQuote_ok_present {F : Type} (faults : Nat → Bool) (cd : Codec F)
    (sb : SymBucket) (ctr : Nat) (q : OneQuote F) (sb1 : SymBucket) (c1 : Nat)
    (h : saveQuote faults cd sb ctr q = .ok (sb1, c1)) :
    ∀ f, (∃ m, lookupA sb f = some m) → ∃ m, lookupA sb1 f = some m := by
  unfold saveQuote at h
  cases hp : cd.parseRFC3339Nano q.T with
  | none =>
    rw [hp] at h
    cases h
    exact fun f hpf => hpf
  | some t =>
    rw [hp] at h
    exact putFields_ok_present faults _ _ _ _ _ _ h

theorem saveQuote_ok_sbKeys {F : Type} (faults : Nat → Bool) (cd : Codec F)
    (sb : SymBucket) (ctr : Nat) (q : OneQuote F) (sb1 : SymBucket) (c1 : Nat)
    (h : saveQuote faults cd sb ctr q = .ok (sb1, c1)) :
    ∀ f k1, k1 ∈ sbKeys sb1 f ↔ k1 ∈ sbKeys sb f ∨
      (f ∈ fieldBuckets ∧ ∃ t, cd.parseRFC3339Nano q.T = some t ∧
        k1 = beKey (toUint64 t)) := by
  unfold saveQuote at h
  cases hp : cd.parseRFC3339Nano q.T with
  | none =>
    rw [hp] at h
    cases h
    intro f k1
    simp
  | some t =>
    simp only [hp] at h
    intro f k1
    rw [putFields_ok_sbKeys faults _ _ _ _ _ _ h f k1, quoteFields_names]
    constructor
    · intro hh
      rcases hh with hh | ⟨hf, hk⟩
      · exact Or.inl hh
      · exact Or.inr ⟨hf, t, rfl, hk⟩
    · intro hh
      rcases hh with hh | ⟨hf, t1, ht1, hk⟩
      · exact Or.inl hh
      · cases ht1
        exact Or.inr ⟨hf, hk⟩

theorem saveQuotes_ok_present {F : Type} (faults : Nat → Bool) (cd : Codec F) :
    ∀ (qs : List (OneQuote F)) (sb : SymBucket) (ctr : Nat) (sb1 : SymBucket) (c1 : Nat),
    saveQuotes faults cd sb ctr qs = .ok (sb1, c1) →
    ∀ f, (∃ m, lookupA sb f = some m) → ∃ m, lookupA sb1 f = some m := by
  intro qs
  induction qs with
  | nil =>
    intro sb ctr sb1 c1 h f hp
    simp only [saveQuotes, Except.ok.injEq, Prod.mk.injEq] at h
    rw [← h.1]
    exact hp
  | cons q qs ih =>
    intro sb ctr sb1 c1 h f hp
    unfold saveQuotes at h
    cases hq : saveQuote faults cd sb ctr q with
    | error e0 => rw [hq] at h; cases h
    | ok r =>
      obtain ⟨sba, ca⟩ := r
      simp only [hq] at h
      exact ih _ _ _ _ h f (saveQuote_ok_present faults cd sb ctr q sba ca hq f hp)

theorem saveQuotes_ok_sbKeys {F : Type} (faults : Nat → Bool) (cd : Codec F) :
    ∀ (qs : List (OneQuote F)) (sb : SymBucket) (ctr : Nat) (sb1 : SymBucket) (c1 : Nat),
    saveQuotes faults cd sb ctr qs = .ok (sb1, c1) →
    ∀ f k1, k1 ∈ sbKeys sb1 f ↔ k1 ∈ sbKeys sb f ∨
      (f ∈ fieldBuckets ∧ ∃ q ∈ qs, ∃ t, cd.parseRFC3339Nano q.T = some t ∧
        k1 = beKey (toUint64 t)) := by
  intro qs
  induction qs with
  | nil =>
    intro sb ctr sb1 c1 h f k1
    simp only [saveQuotes, Except.ok.injEq, Prod.mk.injEq] at h
    rw [← h.1]
    simp
  | cons q qs ih =>
    intro sb ctr sb1 c1 h f k1
    unfold saveQuotes at h
    cases hq : saveQuote faults cd sb ctr q with
    | error e0 => rw [hq] at h; cases h
    | ok r =>
      obtain ⟨sba, ca⟩ := r
      simp only [hq] at h
      rw [ih _ _ _ _ h f k1, saveQuote_ok_sbKeys faults cd sb ctr q sba ca hq f k1]
      constructor
      · intro hh
        rcases hh with (hh | ⟨hf, t, ht, hk⟩) | ⟨hf, q1, hq1, t, ht, hk⟩
        · exact Or.inl hh
        · exact Or.inr ⟨hf, q, by simp, t, ht, hk⟩
        · exact Or.inr ⟨hf, q1, by simp [hq1], t, ht, hk⟩
      · intro hh
        rcases hh with hh | ⟨hf, q1, hq1, t, ht, hk⟩
        · exact Or.inl (Or.inl hh)
        · rcases List.mem_cons.mp hq1 with hq1 | hq1
          · subst hq1
            exact Or.inl (Or.inr ⟨hf, t, ht, hk⟩)
          · exact Or.inr ⟨hf, q1, hq1, t, ht, hk⟩

theorem txBody_ok {F : Type} (faults : Nat → Bool) (cd : Codec F) (s : Store)
    (symbol : String) (quotes : List (OneQuote F)) (fbs : List String)
    (s1 : Store) (c : Nat)
    (h : txBody faults cd s symbol quotes fbs = .ok (s1, c)) :
    ∃ sb1 c1 sb2,
      ensureSubs faults symbol ((lookupA s symbol).getD []) 1 fbs = .ok (sb1, c1) ∧
      saveQuotes faults cd sb1 c1 quotes = .ok (sb2, c) ∧
      s1 = setA s symbol sb2 := by
  unfold txBody at h
  by_cases h0 : faults 0
  · rw [if_pos h0] at h; cases h
  · rw [if_neg h0] at h
    cases he : ensureSubs faults symbol ((lookupA s symbol).getD []) 1 fbs with
    | error e1 => rw [he] at h; cases h
    | ok r =>
      obtain ⟨sb1, c1⟩ := r
      simp only [he] at h
      cases hs : saveQuotes faults cd sb1 c1 quotes with
      | error e2 =>
        simp only [hs] at h
        exact Except.noConfusion h
      | ok r2 =>
        obtain ⟨sb2, c2⟩ := r2
        simp only [hs, Except.ok.injEq, Prod.mk.injEq] at h
        exact ⟨sb1, c1, sb2, rfl, by rw [hs, h.2], h.1.symm⟩

theorem storeSubKeys_setA (s : Store) (symbol : String) (sb : SymBucket) (f : String) :
    storeSubKeys (setA s symbol sb) symbol f = sbKeys sb f := by
  unfold storeSubKeys
  rw [lookupA_setA_self]
  rfl

theorem pASB_success_mem {F : Type} (faults : Nat → Bool) (cd : Codec F)
    (s : Store) (symbol : String) (quotes : List (OneQuote F))
    (hnone : (processAndSaveBatch faults cd s symbol quotes fieldBuckets).2 = none) :
    ∀ q ∈ quotes, ∀ t, cd.parseRFC3339Nano q.T = some t →
    ∀ f ∈ fieldBuckets, beKey (toUint64 t) ∈
      storeSubKeys (processAndSaveBatch faults cd s symbol quotes fieldBuckets).1
        symbol f := by
  cases htx : txBody faults cd s symbol quotes fieldBuckets with
  | error e => simp [processAndSaveBatch, htx] at hnone
  | ok r =>
    obtain ⟨s1, c⟩ := r
    obtain ⟨sb1, c1, sb2, he, hs, hseq⟩ :=
      txBody_ok faults cd s symbol quotes fieldBuckets s1 c htx
    intro q hq t ht f hf
    have hmem :=
      (saveQuotes_ok_sbKeys faults cd quotes sb1 c1 sb2 c hs f
        (beKey (toUint64 t))).mpr (Or.inr ⟨hf, q, hq, t, ht, rfl⟩)
    simp only [processAndSaveBatch, htx, hseq, storeSubKeys_setA]
    exact hmem

/-- C3: the identical-key-set invariant across the eight field sub-buckets of
the symbol is preserved by every processAndSaveBatch call (on an aborted
transaction the store is unchanged, on a committed one every retained record
added its timestamp key to all eight sub-buckets), and on success every
record with a parseable timestamp has its key present in all eight. -/
theorem c3_keyset_invariant {F : Type} (faults : Nat → Bool) (cd : Codec F)
    (s : Store) (symbol : String) (quotes : List (OneQuote F))
    (hinv : sameKeySets s symbol) :
    sameKeySets (processAndSaveBatch faults cd s symbol quotes fieldBuckets).1 symbol
    ∧ ((processAndSaveBatch faults cd s symbol quotes fieldBuckets).2 = none →
        ∀ q ∈ quotes, ∀ t, cd.parseRFC3339Nano q.T = some t →
        ∀ f ∈ fieldBuckets, beKey (toUint64 t) ∈
          storeSubKeys (processAndSaveBatch faults cd s symbol quotes fieldBuckets).1
            symbol f) := by
  refine ⟨?_, fun hnone => pASB_success_mem faults cd s symbol quotes hnone⟩
  cases htx : txBody faults cd s symbol quotes fieldBuckets with
  | error e =>
    simp only [processAndSaveBatch, htx]
    exact hinv
  | ok r =>
    obtain ⟨s1, c⟩ := r
    obtain ⟨sb1, c1, sb2, he, hs, hseq⟩ :=
      txBody_ok faults cd s symbol quotes fieldBuckets s1 c htx
    intro f1 hf1 f2 hf2 k
    have h1 := saveQuotes_ok_sbKeys faults cd quotes sb1 c1 sb2 c hs f1 k
    have h2 := saveQuotes_ok_sbKeys faults cd quotes sb1 c1 sb2 c hs f2 k
    have he1 := ensureSubs_ok_sbKeys faults symbol fieldBuckets _ 1 sb1 c1 he f1
    have he2 := ensureSubs_ok_sbKeys faults symbol fieldBuckets _ 1 sb1 c1 he f2
    have hbase : k ∈ sbKeys ((lookupA s symbol).getD []) f1 ↔
        k ∈ sbKeys ((lookupA s symbol).getD []) f2 := hinv f1 hf1 f2 hf2 k
    simp only [processAndSaveBatch, htx, hseq, storeSubKeys_setA]
    rw [h1, h2, he1, he2]
    tauto

/-- Witness for c3_keyset_invariant on the empty store: after saving one
record the AP and Z sub-buckets agree on membership of its key. -/
theorem c3_keyset_invariant_witness :
    beKey (toUint64 1) ∈
      storeSubKeys (processAndSaveBatch noFaults unitCodec [] "QQQ" [goodQuote]
        fieldBuckets).1 "QQQ" "AP" :=
  (c3_keyset_invariant noFaults unitCodec [] "QQQ" [goodQuote]
      (by intro f1 h1 f2 h2 k; simp [storeSubKeys, sbKeys, lookupA])).2
    (by decide) goodQuote (by simp) 1 (by decide) "AP" (by decide)

/-! ## C4: skip-on-bad-timestamp -/

theorem saveQuotes_filter {F : Type} (faults : Nat → Bool) (cd : Codec F) :
    ∀ (qs : List (OneQuote F)) (sb : SymBucket) (ctr : Nat),
    saveQuotes faults cd sb ctr qs =
      saveQuotes faults cd sb ctr
        (qs.filter fun q => (cd.parseRFC3339Nano q.T).isSome) := by
  intro qs
  induction qs with
  | nil => intro sb ctr; rfl
  | cons q qs ih =>
    intro sb ctr
    cases hp : cd.parseRFC3339Nano q.T with
    | none =>
      have hq : saveQuote faults cd sb ctr q = .ok (sb, ctr) := by
        unfold saveQuote; rw [hp]
      simp only [List.filter_cons, hp, Option.isSome_none, Bool.false_eq_true,
        if_false, saveQuotes, hq]
      exact ih sb ctr
    | some t =>
      simp only [List.filter_cons, hp, Option.isSome_some, if_true, saveQuotes]
      cases hq : saveQuote faults cd sb ctr q with
      | error e => rfl
      | ok r =>
        obtain ⟨sb1, c1⟩ := r
        dsimp only
        exact ih sb1 c1

theorem txBody_filter {F : Type} (faults : Nat → Bool) (cd : Codec F) (s : Store)
    (symbol : String) (quotes : List (OneQuote F)) (fbs : List String) :
    txBody faults cd s symbol quotes fbs =
      txBody faults cd s symbol
        (quotes.filter fun q => (cd.parseRFC3339Nano q.T).isSome) fbs := by
  unfold txBody
  by_cases h0 : faults 0
  · rw [if_pos h0, if_pos h0]
  · rw [if_neg h0, if_neg h0]
    cases he : ensureSubs faults symbol ((lookupA s symbol).getD []) 1 fbs with
    | error e => rfl
    | ok r =>
      obtain ⟨sb1, c1⟩ := r
      dsimp only
      rw [saveQuotes_filter faults cd quotes sb1 c1]

theorem pASB_filter {F : Type} (faults : Nat → Bool) (cd : Codec F) (s : Store)
    (symbol : String) (quotes : List (OneQuote F)) (fbs : List String) :
    processAndSaveBatch faults cd s symbol quotes fbs =
      processAndSaveBatch faults cd s symbol
        (quotes.filter fun q => (cd.parseRFC3339Nano q.T).isSome) fbs := by
  unfold processAndSaveBatch
  rw [txBody_filter faults cd s symbol quotes fbs]

theorem ensureSubs_noFaults_ok (symbol : String) :
    ∀ (fs : List String) (sb : SymBucket) (ctr : Nat),
    ∃ sb1 c1, ensureSubs noFaults symbol sb ctr fs = .ok (sb1, c1) := by
  intro fs
  induction fs with
  | nil => intro sb ctr; exact ⟨sb, ctr, rfl⟩
  | cons f fs ih =>
    intro sb ctr
    obtain ⟨sb1, c1, h⟩ := ih (createIfNotExists sb f []) (ctr + 1)
    exact ⟨sb1, c1, by simp only [ensureSubs, noFaults, Bool.false_eq_true, if_false]; exact h⟩

theorem putFields_noFaults_ok (k : Key) :
    ∀ (l : List (String × String)) (sb : SymBucket) (ctr : Nat),
    (∀ f ∈ l.map Prod.fst, ∃ m, lookupA sb f = some m) →
    ∃ sb1 c1, putFields noFaults sb ctr k l = .ok (sb1, c1) := by
  intro l
  induction l with
  | nil => intro sb ctr _; exact ⟨sb, ctr, rfl⟩
  | cons p rest ih =>
    intro sb ctr hpres
    obtain ⟨f0, v0⟩ := p
    obtain ⟨m, hm⟩ := hpres f0 (by simp)
    have hput : putField noFaults sb ctr f0 k v0 =
        .ok (setA sb f0 (fmPut m k v0), ctr + 1) := by
      simp [putField, hm, noFaults]
    obtain ⟨sb1, c1, h⟩ := ih (setA sb f0 (fmPut m k v0)) (ctr + 1) (by
      intro f hf
      exact putField_ok_present noFaults sb ctr f0 k v0 _ _ hput f
        (hpres f (by simp [hf])))
    exact ⟨sb1, c1, by simp only [putFields, hput]; exact h⟩

theorem saveQuote_noFaults_ok {F : Type} (cd : Codec F) (sb : SymBucket)
    (ctr : Nat) (q : OneQuote F)
    (hpres : ∀ f ∈ fieldBuckets, ∃ m, lookupA sb f = some m) :
    ∃ sb1 c1, saveQuote noFaults cd sb ctr q = .ok (sb1, c1) := by
  unfold saveQuote
  cases hp : cd.parseRFC3339Nano q.T with
  | none => exact ⟨sb, ctr, rfl⟩
  | some t =>
    refine putFields_noFaults_ok (beKey (toUint64 t)) (quoteFields cd q) sb ctr ?_
    rw [quoteFields_names]
    exact hpres

theorem saveQuotes_noFaults_ok {F : Type} (cd : Codec F) :
    ∀ (qs : List (OneQuote F)) (sb : SymBucket) (ctr : Nat),
    (∀ f ∈ fieldBuckets, ∃ m, lookupA sb f = some m) →
    ∃ sb1 c1, saveQuotes noFaults cd sb ctr qs = .ok (sb1, c1) := by
  intro qs
  induction qs with
  | nil => intro sb ctr _; exact ⟨sb, ctr, rfl⟩
  | cons q qs ih =>
    intro sb ctr hpres
    obtain ⟨sba, ca, hq⟩ := saveQuote_noFaults_ok cd sb ctr q hpres
    obtain ⟨sb1, c1, h⟩ := ih sba ca (by
      intro f hf
      exact saveQuote_ok_present noFaults cd sb ctr q sba ca hq f (hpres f hf))
    exact ⟨sb1, c1, by simp only [saveQuotes, hq]; exact h⟩

theorem pASB_noFaults_none {F : Type} (cd : Codec F) (s : Store) (symbol : String)
    (quotes : List (OneQuote F)) :
    (processAndSaveBatch noFaults cd s symbol quotes fieldBuckets).2 = none := by
  obtain ⟨sb1, c1, he⟩ :=
    ensureSubs_noFaults_ok symbol fieldBuckets ((lookupA s symbol).getD []) 1
  obtain ⟨sb2, c2, hs⟩ := saveQuotes_noFaults_ok cd quotes sb1 c1
    (ensureSubs_ok_present noFaults symbol fieldBuckets _ 1 sb1 c1 he)
  simp [processAndSaveBatch, txBody, noFaults, he, hs]

/-- C4: a record whose timestamp fails to parse is skipped without touching
the store or the operation counter — the batch behaves exactly as the batch
of its parseable records — the parse failure does not abort the fault-free
transaction, and every record with a parseable timestamp is persisted under
its key in all eight sub-buckets. -/
theorem c4_skip_bad_timestamp {F : Type} (cd : Codec F) (s : Store)
    (symbol : String) (quotes : List (OneQuote F)) :
    processAndSaveBatch noFaults cd s symbol quotes fieldBuckets =
      processAndSaveBatch noFaults cd s symbol
        (quotes.filter fun q => (cd.parseRFC3339Nano q.T).isSome) fieldBuckets
    ∧ (processAndSaveBatch noFaults cd s symbol quotes fieldBuckets).2 = none
    ∧ (∀ q ∈ quotes, ∀ t, cd.parseRFC3339Nano q.T = some t →
        ∀ f ∈ fieldBuckets, beKey (toUint64 t) ∈
          storeSubKeys
            (processAndSaveBatch noFaults cd s symbol quotes fieldBuckets).1
            symbol f) :=
  ⟨pASB_filter noFaults cd s symbol quotes fieldBuckets,
   pASB_noFaults_none cd s symbol quotes,
   fun q hq t ht f hf =>
     pASB_success_mem noFaults cd s symbol quotes
       (pASB_noFaults_none cd s symbol quotes) q hq t ht f hf⟩

/-- Witness for c4_skip_bad_timestamp: a batch with one bad and one good
record persists the good record (here: its key reaches the Z sub-bucket). -/
theorem c4_skip_bad_timestamp_witness :
    beKey (toUint64 1) ∈
      storeSubKeys (processAndSaveBatch noFaults unitCodec [] "QQQ"
        [badQuote, goodQuote] fieldBuckets).1 "QQQ" "Z" :=
  (c4_skip_bad_timestamp unitCodec [] "QQQ" [badQuote, goodQuote]).2.2
    goodQuote (by decide) 1 (by decide) "Z" (by decide)

/-! ## C7: idempotent overwrite -/

theorem ensureSubs_noFaults_id (symbol : String) :
    ∀ (fs : List String) (sb : SymBucket) (ctr : Nat),
    (∀ f ∈ fs, ∃ m, lookupA sb f = some m) →
    ∃ c2, ensureSubs noFaults symbol sb ctr fs = .ok (sb, c2) := by
  intro fs
  induction fs with
  | nil => intro sb ctr _; exact ⟨ctr, rfl⟩
  | cons f fs ih =>
    intro sb ctr hpres
    obtain ⟨m, hm⟩ := hpres f (by simp)
    obtain ⟨c2, h⟩ := ih sb (ctr + 1) (fun f1 hf1 => hpres f1 (by simp [hf1]))
    refine ⟨c2, ?_⟩
    simp only [ensureSubs, noFaults, Bool.false_eq_true, if_false,
      createIfNotExists_present sb f [] m hm]
    exact h

theorem putFields_ok_lookup_notin (faults : Nat → Bool) (k : Key) :
    ∀ (l : List (String × String)) (sb : SymBucket) (ctr : Nat) (sb1 : SymBucket)
      (c1 : Nat),
    putFields faults sb ctr k l = .ok (sb1, c1) →
    ∀ f, f ∉ l.map Prod.fst → lookupA sb1 f = lookupA sb f := by
  intro l
  induction l with
  | nil =>
    intro sb ctr sb1 c1 h f _
    simp only [putFields, Except.ok.injEq, Prod.mk.injEq] at h
    rw [← h.1]
  | cons p rest ih =>
    intro sb ctr sb1 c1 h f hf
    obtain ⟨f0, v0⟩ := p
    unfold putFields at h
    cases hp0 : putField faults sb ctr f0 k v0 with
    | error e0 => rw [hp0] at h; cases h
    | ok r =>
      obtain ⟨sba, ca⟩ := r
      simp only [hp0] at h
      obtain ⟨m, _, _, hsba, _⟩ := putField_ok_cases faults sb ctr f0 k v0 sba ca hp0
      have hne : f ≠ f0 := by
        intro hh
        exact hf (by simp [hh])
      rw [ih _ _ _ _ h f (fun hh => hf (by simp [hh])), hsba,
        lookupA_setA_ne sb f0 f _ hne]

theorem putFields_noFaults_idem (k : Key) :
    ∀ (l : List (String × String)), (l.map Prod.fst).Nodup →
    ∀ (sb : SymBucket) (ctr : Nat) (sb1 : SymBucket) (c1 : Nat),
    putFields noFaults sb ctr k l = .ok (sb1, c1) →
    ∀ c2, ∃ c3, putFields noFaults sb1 c2 k l = .ok (sb1, c3) := by
  intro l
  induction l with
  | nil =>
    intro _ sb ctr sb1 c1 h c2
    simp only [putFields, Except.ok.injEq, Prod.mk.injEq] at h
    rw [← h.1]
    exact ⟨c2, rfl⟩
  | cons p rest ih =>
    intro hnd sb ctr sb1 c1 h c2
    obtain ⟨f0, v0⟩ := p
    simp only [List.map_cons, List.nodup_cons] at hnd
    unfold putFields at h
    cases hp0 : putField noFaults sb ctr f0 k v0 with
    | error e0 => rw [hp0] at h; cases h
    | ok r =>
      obtain ⟨sba, ca⟩ := r
      simp only [hp0] at h
      obtain ⟨m, hm, _, hsba, _⟩ := putField_ok_cases noFaults sb ctr f0 k v0 sba ca hp0
      have hlook1 : lookupA sb1 f0 = some (fmPut m k v0) := by
        rw [putFields_ok_lookup_notin noFaults k rest sba ca sb1 c1 h f0 hnd.1, hsba,
          lookupA_setA_self]
      have hput2 : putField noFaults sb1 c2 f0 k v0 = .ok (sb1, c2 + 1) := by
        simp only [putField, hlook1, noFaults, Bool.false_eq_true, if_false,
          fmPut_fmPut_same]
        rw [setA_lookupA_self sb1 f0 (fmPut m k v0) hlook1]
      obtain ⟨c3, h3⟩ := ih hnd.2 sba ca sb1 c1 h (c2 + 1)
      refine ⟨c3, ?_⟩
      simp only [putFields, hput2]
      exact h3

theorem saveQuote_noFaults_idem {F : Type} (cd : Codec F) (q : OneQuote F)
    (sb : SymBucket) (ctr : Nat) (sb1 : SymBucket) (c1 : Nat)
    (h : saveQuote noFaults cd sb ctr q = .ok (sb1, c1)) :
    ∀ c2, ∃ c3, saveQuote noFaults cd sb1 c2 q = .ok (sb1, c3) := by
  intro c2
  unfold saveQuote at h ⊢
  cases hp : cd.parseRFC3339Nano q.T with
  | none =>
    rw [hp] at h
    cases h
    exact ⟨c2, rfl⟩
  | some t =>
    simp only [hp] at h
    have hnd : ((quoteFields cd q).map Prod.fst).Nodup := by
      rw [quoteFields_names]
      decide
    exact putFields_noFaults_idem (beKey (toUint64 t)) (quoteFields cd q) hnd
      sb ctr sb1 c1 h c2

/-- C7: re-ingesting the same record for the same symbol is idempotent — a
second fault-free processAndSaveBatch run with the same record leaves the
store exactly as the first run left it (every field sub-bucket holds the
identical encoded value under the identical timestamp key) and commits with
a nil error. -/
theorem c7_idempotent_overwrite {F : Type} (cd : Codec F) (s : Store)
    (symbol : String) (q : OneQuote F) :
    processAndSaveBatch noFaults cd
      (processAndSaveBatch noFaults cd s symbol [q] fieldBuckets).1
      symbol [q] fieldBuckets
    = ((processAndSaveBatch noFaults cd s symbol [q] fieldBuckets).1, none) := by
  have hnone := pASB_noFaults_none cd s symbol [q]
  cases htx : txBody noFaults cd s symbol [q] fieldBuckets with
  | error e => simp [processAndSaveBatch, htx] at hnone
  | ok r =>
    obtain ⟨s1, c⟩ := r
    obtain ⟨sb1, c1, sb2, he, hs, hseq⟩ :=
      txBody_ok noFaults cd s symbol [q] fieldBuckets s1 c htx
    have hq : ∃ c2, saveQuote noFaults cd sb1 c1 q = .ok (sb2, c2) := by
      unfold saveQuotes at hs
      cases hq0 : saveQuote noFaults cd sb1 c1 q with
      | error e0 => rw [hq0] at hs; cases hs
      | ok r0 =>
        obtain ⟨sba, ca⟩ := r0
        simp only [hq0, saveQuotes, Except.ok.injEq, Prod.mk.injEq] at hs
        obtain ⟨hsb, hc⟩ := hs
        subst hsb
        exact ⟨ca, rfl⟩
    obtain ⟨c2, hq⟩ := hq
    have hpres2 : ∀ f ∈ fieldBuckets, ∃ m, lookupA sb2 f = some m := by
      intro f hf
      exact saveQuote_ok_present noFaults cd sb1 c1 q sb2 c2 hq f
        (ensureSubs_ok_present noFaults symbol fieldBuckets _ 1 sb1 c1 he f hf)
    have hr1 : (processAndSaveBatch noFaults cd s symbol [q] fieldBuckets).1 =
        setA s symbol sb2 := by
      simp [processAndSaveBatch, htx, hseq]
    rw [hr1]
    have hlook : (lookupA (setA s symbol sb2) symbol).getD [] = sb2 := by
      rw [lookupA_setA_self]
      rfl
    obtain ⟨ce, hens⟩ := ensureSubs_noFaults_id symbol fieldBuckets sb2 1 hpres2
    obtain ⟨c3, hq2⟩ := saveQuote_noFaults_idem cd q sb1 c1 sb2 c2 hq ce
    have hsq2 : saveQuotes noFaults cd sb2 ce [q] = .ok (sb2, c3) := by
      simp only [saveQuotes, hq2]
    have htx2 : txBody noFaults cd (setA s symbol sb2) symbol [q] fieldBuckets =
        .ok (setA (setA s symbol sb2) symbol sb2, c3) := by
      simp only [txBody, noFaults, Bool.false_eq_true, if_false, hlook, hens, hsq2]
    simp only [processAndSaveBatch, htx2, setA_setA]

/-! ## Retry executor (executeActionWithRetries)

Durations are int64 nanosecond counts, so the arithmetic of the backoff
computation wraps modulo 2^64; the `math/rand` source is abstracted as an
oracle giving the draw consumed before each retry; `rand.Int63n(n)` panics
when n is not positive, which the embedding surfaces as a `panicked`
outcome. -/

/-- Twos-complement wraparound of int64 arithmetic. -/
def wrap64 (x : Int) : Int := (x + 2 ^ 63) % 2 ^ 64 - 2 ^ 63

/-- The Go expression `1 << uint(s)` evaluated in int64: shifting past the
width yields 0, shifting by 63 yields the minimal int64. -/
def goShl1 (s : Nat) : Int := wrap64 ((2 : Int) ^ s)

/-- Truncating (toward zero) division by two: the Go `int64(x) / 2`. -/
def tdiv2 (x : Int) : Int :=
  if 0 ≤ x then ((x.toNat / 2 : Nat) : Int) else -(((-x).toNat / 2 : Nat) : Int)

/-- The capped backoff computed before retrying attempt i:
`backoff := initialBackoff * time.Duration(1 << uint(i-1))` followed by
`if backoff > maxBackoff { backoff = maxBackoff }`, in int64 arithmetic. -/
def backoffAt (initialBackoff maxBackoff : Int) (i : Nat) : Int :=
  let b := wrap64 (initialBackoff * goShl1 (i - 1))
  if b > maxBackoff then maxBackoff else b

/-- The jitter drawn by `rand.Int63n(int64(backoff) / 2)`, with the random
draw of attempt i supplied by the oracle; only used when the bound is
positive. -/
def jitterAt (rng : Nat → Nat) (i : Nat) (b : Int) : Int :=
  (((rng i) % (tdiv2 b).toNat : Nat) : Int)

/-- The terminal error built after exhausting the retries: the fmt.Errorf
call wraps the action label, the attempt count and the last underlying
error. -/
structure TerminalErr (E : Type) where
  label : String
  attempts : Nat
  cause : E
deriving DecidableEq

/-- Observable outcome of executeActionWithRetries: the returned
(result, error) pair together with the list of attempt numbers invoked and
the sleeps performed, or a panic of rand.Int63n on a non-positive bound. -/
inductive RunOut (V E : Type) where
  | ret (res : Option V) (err : Option (TerminalErr E)) (tried : List Nat)
      (sleeps : List Int)
  | panicked (tried : List Nat)
deriving DecidableEq

/-- The retry loop from attempt i (`for i := 1; i <= maxRetries; i++`); the
fuel argument counts the remaining iterations, maxRetries - i + 1 at entry. -/
def runFrom {V E : Type} (action : Nat → Option V × Option E) (rng : Nat → Nat)
    (maxRetries : Nat) (initialBackoff maxBackoff : Int) (actionName : String) :
    Nat → Nat → RunOut V E
  | _, 0 => .ret none none [] []
  | i, fuel + 1 =>
    match action i with
    | (res, none) => .ret res none [i] []
    | (_, some e) =>
      if i < maxRetries then
        let b := backoffAt initialBackoff maxBackoff i
        if tdiv2 b ≤ 0 then .panicked [i]
        else
          match runFrom action rng maxRetries initialBackoff maxBackoff actionName
              (i + 1) fuel with
          | .ret r er tried sl =>
            .ret r er (i :: tried) ((b + jitterAt rng i b) :: sl)
          | .panicked tried => .panicked (i :: tried)
      else .ret none (some ⟨actionName, maxRetries, e⟩) [i] []

/-- executeActionWithRetries: run the retry loop from attempt 1. -/
def executeActionWithRetries {V E : Type} (action : Nat → Option V × Option E)
    (rng : Nat → Nat) (maxRetries : Nat) (initialBackoff maxBackoff : Int)
    (actionName : String) : RunOut V E :=
  runFrom action rng maxRetries initialBackoff maxBackoff actionName 1 maxRetries

theorem wrap64_eq_self (x : Int) (h0 : -2 ^ 63 ≤ x) (h1 : x < 2 ^ 63) :
    wrap64 x = x := by
  unfold wrap64
  omega

theorem goShl1_eq (s : Nat) (hs : s < 63) : goShl1 s = 2 ^ s := by
  unfold goShl1
  have hpow : (2 : Int) ^ s < 2 ^ 63 := by
    have := pow_lt_pow_right₀ (by norm_num : (1 : Int) < 2) hs
    exact this
  have hpos : (0 : Int) ≤ 2 ^ s := pow_nonneg (by norm_num) s
  exact wrap64_eq_self _ (by omega) hpow

theorem backoffAt_eq_min (initB maxB : Int) (i : Nat) (hI : 0 < initB)
    (_hi : 1 ≤ i) (hov : initB * 2 ^ (i - 1) < 2 ^ 63) :
    backoffAt initB maxB i = min (initB * 2 ^ (i - 1)) maxB := by
  have hpos : (0 : Int) < 2 ^ (i - 1) := pow_pos (by norm_num) (i - 1)
  have hple : (2 : Int) ^ (i - 1) ≤ initB * 2 ^ (i - 1) :=
    le_mul_of_one_le_left (le_of_lt hpos) hI
  have hsmall : i - 1 < 63 := by
    by_contra hc
    push_neg at hc
    have : (2 : Int) ^ 63 ≤ 2 ^ (i - 1) :=
      pow_le_pow_right₀ (by norm_num : (1 : Int) ≤ 2) hc
    omega
  have hshl := goShl1_eq (i - 1) hsmall
  have hprodpos : 0 < initB * 2 ^ (i - 1) := mul_pos hI hpos
  unfold backoffAt
  rw [hshl, wrap64_eq_self _ (by omega) hov]
  rcases le_or_lt (initB * 2 ^ (i - 1)) maxB with hle | hlt
  · rw [if_neg (not_lt.mpr hle), min_eq_left hle]
  · rw [if_pos hlt, min_eq_right (le_of_lt hlt)]

/-- C6, counterexample: with initialBackoff = 50ms and maxBackoff = 2s the
int64 product 50ms * 2^38 overflows before attempt 39, so the computed
backoff is negative there instead of the claimed min(50ms * 2^38, 2s), and
the schedule is no longer non-decreasing after having saturated at
maxBackoff (it drops from 2s at attempt 38 to a negative value at 39). -/
theorem c6_backoff_counterexample :
    backoffAt 50000000 2000000000 39 ≠
      min ((50000000 : Int) * 2 ^ (39 - 1)) 2000000000
    ∧ backoffAt 50000000 2000000000 39 < backoffAt 50000000 2000000000 38 := by
  constructor
  · decide
  · decide

/-- C6, amended: as long as the doubling does not overflow int64 (namely
initialBackoff * 2^(k-1) < 2^63; with 50ms this holds up to attempt 38), the
computed backoff equals min(initialBackoff * 2^(k-1), maxBackoff), never
exceeds maxBackoff, is non-decreasing in k until it saturates at maxBackoff,
and the jitter added to it lies in [0, backoff/2) whenever the Int63n bound
is positive. -/
theorem c6_backoff_schedule_no_overflow (initB maxB : Int) (rng : Nat → Nat)
    (hI : 0 < initB) (hM : 0 ≤ maxB) (k : Nat) (hk : 1 ≤ k)
    (hov : initB * 2 ^ (k - 1) < 2 ^ 63) :
    backoffAt initB maxB k = min (initB * 2 ^ (k - 1)) maxB
    ∧ backoffAt initB maxB k ≤ maxB
    ∧ (initB * 2 ^ k < 2 ^ 63 →
        backoffAt initB maxB k ≤ backoffAt initB maxB (k + 1))
    ∧ (0 < tdiv2 (backoffAt initB maxB k) →
        0 ≤ jitterAt rng k (backoffAt initB maxB k) ∧
        jitterAt rng k (backoffAt initB maxB k) <
          tdiv2 (backoffAt initB maxB k)) := by
  have hmin := backoffAt_eq_min initB maxB k hI hk hov
  refine ⟨hmin, ?_, ?_, ?_⟩
  · rw [hmin]
    exact min_le_right _ _
  · intro hov2
    have hmin2 := backoffAt_eq_min initB maxB (k + 1) hI (by omega)
      (by simpa using hov2)
    rw [hmin, hmin2]
    have hdouble : initB * 2 ^ ((k + 1) - 1) = initB * 2 ^ (k - 1) * 2 := by
      have h1 : (k + 1) - 1 = (k - 1) + 1 := by omega
      rw [h1, pow_succ]
      ring
    have hpos : (0 : Int) < 2 ^ (k - 1) := pow_pos (by norm_num) (k - 1)
    have hprodpos : 0 < initB * 2 ^ (k - 1) := mul_pos hI hpos
    rw [hdouble]
    omega
  · intro hpos
    constructor
    · unfold jitterAt
      positivity
    · unfold jitterAt
      have hbn : 0 < (tdiv2 (backoffAt initB maxB k)).toNat := by omega
      have := Nat.mod_lt (rng k) hbn
      omega

/-- Witness for c6_backoff_schedule_no_overflow at attempt 3 of the
50ms/2s policy. -/
theorem c6_backoff_schedule_no_overflow_witness :
    backoffAt 50000000 2000000000 3 =
      min ((50000000 : Int) * 2 ^ (3 - 1)) 2000000000
    ∧ backoffAt 50000000 2000000000 3 ≤ 2000000000
    ∧ ((50000000 : Int) * 2 ^ 3 < 2 ^ 63 →
        backoffAt 50000000 2000000000 3 ≤ backoffAt 50000000 2000000000 4)
    ∧ (0 < tdiv2 (backoffAt 50000000 2000000000 3) →
        0 ≤ jitterAt (fun _ => 5) 3 (backoffAt 50000000 2000000000 3) ∧
        jitterAt (fun _ => 5) 3 (backoffAt 50000000 2000000000 3) <
          tdiv2 (backoffAt 50000000 2000000000 3)) :=
  c6_backoff_schedule_no_overflow 50000000 2000000000 (fun _ => 5)
    (by decide) (by decide) 3 (by decide) (by decide)

theorem tdiv2_pos (b : Int) (hb : 2 ≤ b) : 0 < tdiv2 b := by
  unfold tdiv2
  rw [if_pos (by omega)]
  omega

theorem runFrom_succeed_step {V E : Type} (action : Nat → Option V × Option E)
    (rng : Nat → Nat) (maxRetries : Nat) (initB maxB : Int) (name : String)
    (i fuel : Nat) (r : Option V) (ha : action i = (r, none)) :
    runFrom action rng maxRetries initB maxB name i (fuel + 1) =
      .ret r none [i] [] := by
  simp [runFrom, ha]

theorem runFrom_last_fail {V E : Type} (action : Nat → Option V × Option E)
    (rng : Nat → Nat) (maxRetries : Nat) (initB maxB : Int) (name : String)
    (i fuel : Nat) (r : Option V) (e : E) (ha : action i = (r, some e))
    (hge : ¬ i < maxRetries) :
    runFrom action rng maxRetries initB maxB name i (fuel + 1) =
      .ret none (some ⟨name, maxRetries, e⟩) [i] [] := by
  simp [runFrom, ha, hge]

theorem runFrom_fail_step {V E : Type} (action : Nat → Option V × Option E)
    (rng : Nat → Nat) (maxRetries : Nat) (initB maxB : Int) (name : String)
    (i fuel : Nat) (r : Option V) (e : E) (ha : action i = (r, some e))
    (hlt : i < maxRetries) (hb : 0 < tdiv2 (backoffAt initB maxB i)) :
    runFrom action rng maxRetries initB maxB name i (fuel + 1) =
      match runFrom action rng maxRetries initB maxB name (i + 1) fuel with
      | .ret r1 er tried sl =>
        .ret r1 er (i :: tried)
          ((backoffAt initB maxB i + jitterAt rng i (backoffAt initB maxB i)) :: sl)
      | .panicked tried => .panicked (i :: tried) := by
  simp [runFrom, ha, hlt, not_le.mpr hb]

theorem runFrom_panic_step {V E : Type} (action : Nat → Option V × Option E)
    (rng : Nat → Nat) (maxRetries : Nat) (initB maxB : Int) (name : String)
    (i fuel : Nat) (r : Option V) (e : E) (ha : action i = (r, some e))
    (hlt : i < maxRetries) (hb : tdiv2 (backoffAt initB maxB i) ≤ 0) :
    runFrom action rng maxRetries initB maxB name i (fuel + 1) =
      .panicked [i] := by
  simp [runFrom, ha, hlt, hb]

/-- C5: with maxRetries = 3 (and a backoff policy that keeps the Int63n
bound positive), an action failing on attempts 1..3 is invoked exactly three
times (attempts 1, 2, 3 with two sleeps in between) and a nil result is
returned together with the terminal error wrapping the action label, the
attempt count 3 and the last underlying error; conversely the first
successful attempt k returns the result of that attempt immediately, having
invoked only attempts 1..k. -/
theorem c5_retry_termination {V E : Type} (action : Nat → Option V × Option E)
    (rng : Nat → Nat) (initB maxB : Int) (actionName : String)
    (hI : 2 ≤ initB) (hIov : initB * 2 < 2 ^ 63) (hM : 2 ≤ maxB) :
    ((∀ i, 1 ≤ i → i ≤ 3 → ((action i).2).isSome = true) →
      ∀ e3, (action 3).2 = some e3 →
      ∃ s1 s2, executeActionWithRetries action rng 3 initB maxB actionName =
        .ret none (some ⟨actionName, 3, e3⟩) [1, 2, 3] [s1, s2])
    ∧ (∀ k, 1 ≤ k → k ≤ 3 →
        (∀ j, 1 ≤ j → j < k → ((action j).2).isSome = true) →
        (action k).2 = none →
        ∃ sl, executeActionWithRetries action rng 3 initB maxB actionName =
          .ret (action k).1 none (List.range' 1 k) sl) := by
  have hb1 : 0 < tdiv2 (backoffAt initB maxB 1) := by
    apply tdiv2_pos
    rw [backoffAt_eq_min initB maxB 1 (by omega) (by omega) (by simp; omega)]
    simp
    omega
  have hb2 : 0 < tdiv2 (backoffAt initB maxB 2) := by
    apply tdiv2_pos
    rw [backoffAt_eq_min initB maxB 2 (by omega) (by omega) (by norm_num; omega)]
    rw [show ((2 : Nat) - 1) = 1 by norm_num]
    rw [pow_one]
    omega
  constructor
  · intro hfail e3 he3
    obtain ⟨r1, o1, ha1⟩ : ∃ r o, action 1 = (r, o) := ⟨(action 1).1, (action 1).2, rfl⟩
    obtain ⟨e1, he1⟩ : ∃ e, o1 = some e := by
      have := hfail 1 (by omega) (by omega)
      rw [ha1] at this
      simp only [Option.isSome_iff_exists] at this
      exact this
    subst he1
    obtain ⟨r2, o2, ha2⟩ : ∃ r o, action 2 = (r, o) := ⟨(action 2).1, (action 2).2, rfl⟩
    obtain ⟨e2, he2⟩ : ∃ e, o2 = some e := by
      have := hfail 2 (by omega) (by omega)
      rw [ha2] at this
      simp only [Option.isSome_iff_exists] at this
      exact this
    subst he2
    obtain ⟨r3, ha3⟩ : ∃ r, action 3 = (r, some e3) := by
      refine ⟨(action 3).1, ?_⟩
      rw [← he3]
    refine ⟨backoffAt initB maxB 1 + jitterAt rng 1 (backoffAt initB maxB 1),
      backoffAt initB maxB 2 + jitterAt rng 2 (backoffAt initB maxB 2), ?_⟩
    unfold executeActionWithRetries
    rw [show (3 : Nat) = 2 + 1 by norm_num,
      runFrom_fail_step action rng 3 initB maxB actionName 1 2 r1 e1 ha1
        (by norm_num) hb1,
      runFrom_fail_step action rng 3 initB maxB actionName 2 1 r2 e2 ha2
        (by norm_num) hb2,
      runFrom_last_fail action rng 3 initB maxB actionName 3 0 r3 e3 ha3
        (by norm_num)]
  · intro k hk1 hk3 hfail hsucc
    interval_cases k
    · obtain ⟨r1, ha1⟩ : ∃ r, action 1 = (r, none) := by
        refine ⟨(action 1).1, ?_⟩
        rw [← hsucc]
      refine ⟨[], ?_⟩
      unfold executeActionWithRetries
      rw [show (3 : Nat) = 2 + 1 by norm_num,
        runFrom_succeed_step action rng 3 initB maxB actionName 1 2 r1 ha1]
      rw [ha1]
      rfl
    · obtain ⟨r1, o1, ha1⟩ : ∃ r o, action 1 = (r, o) := ⟨(action 1).1, (action 1).2, rfl⟩
      obtain ⟨e1, he1⟩ : ∃ e, o1 = some e := by
        have := hfail 1 (by omega) (by omega)
        rw [ha1] at this
        simp only [Option.isSome_iff_exists] at this
        exact this
      subst he1
      obtain ⟨r2, ha2⟩ : ∃ r, action 2 = (r, none) := by
        refine ⟨(action 2).1, ?_⟩
        rw [← hsucc]
      refine ⟨[backoffAt initB maxB 1 + jitterAt rng 1 (backoffAt initB maxB 1)], ?_⟩
      unfold executeActionWithRetries
      rw [show (3 : Nat) = 2 + 1 by norm_num,
        runFrom_fail_step action rng 3 initB maxB actionName 1 2 r1 e1 ha1
          (by norm_num) hb1,
        runFrom_succeed_step action rng 3 initB maxB actionName 2 1 r2 ha2]
      rw [ha2]
      rfl
    · obtain ⟨r1, o1, ha1⟩ : ∃ r o, action 1 = (r, o) := ⟨(action 1).1, (action 1).2, rfl⟩
      obtain ⟨e1, he1⟩ : ∃ e, o1 = some e := by
        have := hfail 1 (by omega) (by omega)
        rw [ha1] at this
        simp only [Option.isSome_iff_exists] at this
        exact this
      subst he1
      obtain ⟨r2, o2, ha2⟩ : ∃ r o, action 2 = (r, o) := ⟨(action 2).1, (action 2).2, rfl⟩
      obtain ⟨e2, he2⟩ : ∃ e, o2 = some e := by
        have := hfail 2 (by omega) (by omega)
        rw [ha2] at this
        simp only [Option.isSome_iff_exists] at this
        exact this
      subst he2
      obtain ⟨r3, ha3⟩ : ∃ r, action 3 = (r, none) := by
        refine ⟨(action 3).1, ?_⟩
        rw [← hsucc]
      refine ⟨[backoffAt initB maxB 1 + jitterAt rng 1 (backoffAt initB maxB 1),
        backoffAt initB maxB 2 + jitterAt rng 2 (backoffAt initB maxB 2)], ?_⟩
      unfold executeActionWithRetries
      rw [show (3 : Nat) = 2 + 1 by norm_num,
        runFrom_fail_step action rng 3 initB maxB actionName 1 2 r1 e1 ha1
          (by norm_num) hb1,
        runFrom_fail_step action rng 3 initB maxB actionName 2 1 r2 e2 ha2
          (by norm_num) hb2,
        runFrom_succeed_step action rng 3 initB maxB actionName 3 0 r3 ha3]
      rw [ha3]
      rfl

/-- Witness for c5_retry_termination with an always-failing Unit action. -/
theorem c5_retry_termination_witness :
    ∃ s1 s2, executeActionWithRetries (fun _ => ((none : Option Unit), some ()))
      (fun _ => 0) 3 50000000 2000000000 "act" =
      .ret none (some ⟨"act", 3, ()⟩) [1, 2, 3] [s1, s2] :=
  (c5_retry_termination (fun _ => ((none : Option Unit), some ())) (fun _ => 0)
      50000000 2000000000 "act" (by decide) (by decide) (by decide)).1
    (fun _ _ _ => rfl) () rfl

theorem runFrom_no_panic {V E : Type} (action : Nat → Option V × Option E)
    (rng : Nat → Nat) (maxRetries : Nat) (initB maxB : Int) (name : String)
    (hpre : ∀ i, 1 ≤ i → i < maxRetries → 2 ≤ backoffAt initB maxB i) :
    ∀ (fuel i : Nat), 1 ≤ i → ∀ tried,
    runFrom action rng maxRetries initB maxB name i fuel ≠ .panicked tried := by
  intro fuel
  induction fuel with
  | zero =>
    intro i _ tried h
    exact RunOut.noConfusion h
  | succ fuel ih =>
    intro i hi tried h
    obtain ⟨r, o, ha⟩ : ∃ r o, action i = (r, o) := ⟨(action i).1, (action i).2, rfl⟩
    cases o with
    | none =>
      rw [runFrom_succeed_step action rng maxRetries initB maxB name i fuel r ha] at h
      exact RunOut.noConfusion h
    | some e =>
      by_cases hlt : i < maxRetries
      · have hb : 0 < tdiv2 (backoffAt initB maxB i) :=
          tdiv2_pos _ (hpre i hi hlt)
        rw [runFrom_fail_step action rng maxRetries initB maxB name i fuel r e ha
          hlt hb] at h
        cases hrec : runFrom action rng maxRetries initB maxB name (i + 1) fuel with
        | ret r1 er tried1 sl =>
          rw [hrec] at h
          exact RunOut.noConfusion h
        | panicked tried1 =>
          exact ih (i + 1) (by omega) tried1 hrec
      · rw [runFrom_last_fail action rng maxRetries initB maxB name i fuel r e ha
          hlt] at h
        exact RunOut.noConfusion h

/-- C10: the sleep path of executeActionWithRetries calls
rand.Int63n(int64(backoff) / 2), which panics when its bound is not
positive; whenever the capped backoff of every failing non-final attempt is
at least 2ns the run never panics, and with initialBackoff = 1ns the very
first retry panics (backoff 1, bound 1/2 = 0). -/
theorem c10_jitter_panic_precondition :
    (∀ (V E : Type) (action : Nat → Option V × Option E) (rng : Nat → Nat)
      (maxRetries : Nat) (initB maxB : Int) (name : String),
      (∀ i, 1 ≤ i → i < maxRetries → 2 ≤ backoffAt initB maxB i) →
      ∀ tried, executeActionWithRetries action rng maxRetries initB maxB name ≠
        .panicked tried)
    ∧ executeActionWithRetries (fun _ => ((none : Option Unit), some ()))
        (fun _ => 0) 2 1 1000 "act" = .panicked [1] := by
  constructor
  · intro V E action rng maxRetries initB maxB name hpre tried
    exact runFrom_no_panic action rng maxRetries initB maxB name hpre maxRetries 1
      (by omega) tried
  · decide

/-- Witness for the no-panic direction of c10_jitter_panic_precondition
under the 50ms/2s policy. -/
theorem c10_jitter_panic_precondition_witness :
    executeActionWithRetries (fun _ => ((none : Option Unit), some ()))
      (fun _ => 0) 3 50000000 2000000000 "act" ≠ RunOut.panicked [1] :=
  c10_jitter_panic_precondition.1 Unit Unit (fun _ => (none, some ()))
    (fun _ => 0) 3 50000000 2000000000 "act"
    (by
      intro i h1 h2
      interval_cases i
      · decide
      · decide) [1]

/-! ## InitDB configuration selection (alpacaDB.go)

InitDB switches on cfg.FileMode before opening the store: 0600 replaces the
whole configuration by the package-level WriteConfig, 0400 by ReadConfig,
and any other mode returns an error before `db.Open` is attempted.  The
embedding returns the DBOptions actually handed to `db.Open`, or none for
the error path. -/

/-- DBOptions: path, permission bits of the created file, and the bbolt
open options (lock timeout in nanoseconds, read-only flag). -/
structure DBOptions where
  Path : String
  FileMode : Nat
  Timeout : Int
  ReadOnly : Bool
deriving DecidableEq

/-- The package-level read-write configuration. -/
def WriteConfig : DBOptions :=
  { Path := "db/ticks.db", FileMode := 0o600, Timeout := 500000000,
    ReadOnly := false }

/-- The package-level read-only configuration. -/
def ReadConfig : DBOptions :=
  { Path := "db/ticks.db", FileMode := 0o400, Timeout := 500000000,
    ReadOnly := true }

/-- The configuration InitDB passes to db.Open: the switch on FileMode
overwrites cfg with WriteConfig or ReadConfig, and any other mode is the
error return (none) reached before any open. -/
def initDBChooseConfig (cfg : DBOptions) : Option DBOptions :=
  if cfg.FileMode = 0o600 then some WriteConfig
  else if cfg.FileMode = 0o400 then some ReadConfig
  else none

/-- C9: InitDB ignores the caller-supplied Path and bolt options — FileMode
0600 replaces the whole configuration by WriteConfig, 0400 by ReadConfig,
anything else errors before opening, the outcome depends only on FileMode,
and every configuration that reaches db.Open has path "db/ticks.db". -/
theorem c9_initdb_config_override (cfg : DBOptions) :
    (cfg.FileMode = 0o600 → initDBChooseConfig cfg = some WriteConfig)
    ∧ (cfg.FileMode = 0o400 → initDBChooseConfig cfg = some ReadConfig)
    ∧ (cfg.FileMode ≠ 0o600 → cfg.FileMode ≠ 0o400 →
        initDBChooseConfig cfg = none)
    ∧ (∀ cfg2 : DBOptions, cfg.FileMode = cfg2.FileMode →
        initDBChooseConfig cfg = initDBChooseConfig cfg2)
    ∧ (∀ d : DBOptions, initDBChooseConfig cfg = some d → d.Path = "db/ticks.db") := by
  refine ⟨?_, ?_, ?_, ?_, ?_⟩
  · intro h
    simp [initDBChooseConfig, h]
  · intro h
    simp [initDBChooseConfig, h]
  · intro h1 h2
    simp [initDBChooseConfig, h1, h2]
  · intro cfg2 h
    simp [initDBChooseConfig, h]
  · intro d hd
    unfold initDBChooseConfig at hd
    by_cases h1 : cfg.FileMode = 0o600
    · rw [if_pos h1] at hd
      cases hd
      rfl
    · rw [if_neg h1] at hd
      by_cases h2 : cfg.FileMode = 0o400
      · rw [if_pos h2] at hd
        cases hd
        rfl
      · rw [if_neg h2] at hd
        cases hd

/-- Witness for c9_initdb_config_override: a caller-supplied path and
options are discarded in favor of WriteConfig when FileMode is 0600. -/
theorem c9_initdb_config_override_witness :
    initDBChooseConfig
      { Path := "/tmp/elsewhere.db", FileMode := 0o600, Timeout := 7,
        ReadOnly := true } = some WriteConfig :=
  (c9_initdb_config_override
    { Path := "/tmp/elsewhere.db", FileMode := 0o600, Timeout := 7,
      ReadOnly := true }).1 rfl
